import Mathlib

/-!
Shallow embedding of the result-aggregation engine of the
Bangladesh-Election-Tracker repository.

Sources embedded here:
 - lib/alliances.ts   : calculateAllianceVotes, getWinnerAllianceId,
                        aggregateAllianceSeatCounts
 - lib/firestore.ts   : normalizeResult, saveResult (its pure result-document
                        computation), updateElectionSummary (its pure
                        recomputation over a fetched snapshot)
 - data/parties.ts    : party reference table (the copy in the repository tree
                        predates the alliance fields; the alliance fields, the
                        alliance table and normalizePartyKey are modelled from
                        the spec, see the doc comments below)
 - types/index.ts     : Party, Result, SeatCount, AllianceSeatCount,
                        ElectionSummary shapes

JavaScript objects with string keys enumerate their entries in insertion
order, and duplicate assignments update in place; mappings are therefore
embedded as association lists (List (String x Int)) with an upsert that
keeps the position of an existing key and appends new keys at the end.
Array.prototype.sort is stable, so the vote sorts are embedded as a stable
insertion sort.  JavaScript numbers carrying vote counts are embedded as Int
(negative counts are representable, which the error-handling claims need),
and percentage arithmetic as Rat.
-/

namespace Election

/-- Counting-progress state of one result document.  The constructor
`ongoing` encodes the source status string "partial"; the other constructors
keep the source spelling ("pending", "completed", "counting"). -/
inductive Status where
  | pending
  | ongoing
  | completed
  | counting
deriving Repr, DecidableEq

/-- Party reference entity, from types/index.ts. -/
structure Party where
  id : String
  name : String
  shortName : String
  color : String
  symbol : String
  order : Nat
  allianceId : Option String
  isIndependent : Bool
deriving Repr, DecidableEq

/-- Party reference table.  Ids, names, short names, colors, symbols and
order come from data/parties.ts.  Modelled from the spec: the repository
tree only contains a pre-alliance copy of data/parties.ts, so the
allianceId and isIndependent fields (present in types/index.ts and consumed
by lib/alliances.ts) are filled in from the spec: bnp belongs to the "bnp"
alliance, jamaat to the "jamaat" alliance, all other parties (including
independents) have no alliance and fall into the "others" bucket. -/
def parties : List Party := [
  { id := "al", name := "Bangladesh Awami League", shortName := "AL",
    color := "#00A651", symbol := "boat", order := 1,
    allianceId := none, isIndependent := false },
  { id := "bnp", name := "Bangladesh Nationalist Party", shortName := "BNP",
    color := "#E4002B", symbol := "paddy", order := 2,
    allianceId := some "bnp", isIndependent := false },
  { id := "jp-ershad", name := "Jatiya Party (Ershad)", shortName := "JP",
    color := "#FFD700", symbol := "plough", order := 3,
    allianceId := none, isIndependent := false },
  { id := "jamaat", name := "Bangladesh Jamaat-e-Islami", shortName := "JI",
    color := "#006400", symbol := "scale", order := 4,
    allianceId := some "jamaat", isIndependent := false },
  { id := "jp-manju", name := "Jatiya Party (Manju)", shortName := "JP-M",
    color := "#FFA500", symbol := "plough2", order := 5,
    allianceId := none, isIndependent := false },
  { id := "workers-party", name := "Workers Party of Bangladesh", shortName := "WP",
    color := "#DC143C", symbol := "star", order := 6,
    allianceId := none, isIndependent := false },
  { id := "jasod", name := "Jatiya Samajtantrik Dal", shortName := "JSD",
    color := "#8B0000", symbol := "fist", order := 7,
    allianceId := none, isIndependent := false },
  { id := "bikalpa-dhara", name := "Bikalpa Dhara Bangladesh", shortName := "BDB",
    color := "#4169E1", symbol := "diamond", order := 8,
    allianceId := none, isIndependent := false },
  { id := "gono-forum", name := "Gono Forum", shortName := "GF",
    color := "#9370DB", symbol := "house", order := 9,
    allianceId := none, isIndependent := false },
  { id := "ldf", name := "Liberal Democratic Party", shortName := "LDP",
    color := "#20B2AA", symbol := "book", order := 10,
    allianceId := none, isIndependent := false },
  { id := "independent", name := "Independent", shortName := "IND",
    color := "#6B7280", symbol := "person", order := 99,
    allianceId := none, isIndependent := true },
  { id := "other", name := "Others", shortName := "OTH",
    color := "#9CA3AF", symbol := "question", order := 100,
    allianceId := none, isIndependent := false }
]

/-- Lookup by id, from data/parties.ts (returns an explicit not-found signal). -/
def getPartyById (partyId : String) : Option Party :=
  parties.find? (fun p => p.id == partyId)

/-- Character-wise ASCII lowercasing (JavaScript toLowerCase on the ASCII
party keys), used for the case-insensitive key match below. -/
def strLower (s : String) : String :=
  String.mk (s.data.map Char.toLower)

/-- Modelled from the spec: normalizePartyKey is exported by the current
data/parties.ts, which is missing from the repository tree.  Per the spec it
attempts an exact match of the raw key against known party ids and display
names, case-insensitively, and falls back to the stable "other" bucket id
when nothing matches; it never fails and never drops a key. -/
def normalizePartyKey (raw : String) : String :=
  match parties.find? (fun p =>
      strLower p.id == strLower raw || strLower p.name == strLower raw) with
  | some p => p.id
  | none => "other"

/-- Alliance reference entity. -/
structure Alliance where
  id : String
  name : String
  shortName : String
  color : String
deriving Repr, DecidableEq

/-- Modelled from the spec: the alliance table exported by the current
data/parties.ts, which is missing from the repository tree.  The three
alliance keys and their enumeration order (bnp, jamaat, others) are those
consumed by lib/alliances.ts and types/index.ts. -/
def alliances : List Alliance := [
  { id := "bnp", name := "BNP Alliance", shortName := "BNP", color := "#E4002B" },
  { id := "jamaat", name := "Jamaat-NCP Alliance", shortName := "JI-NCP", color := "#006400" },
  { id := "others", name := "Others", shortName := "OTH", color := "#9CA3AF" }
]

/-- Per-constituency alliance vote roll-up, from types/index.ts. -/
structure AllianceVotes where
  bnp : Int
  jamaat : Int
  others : Int
deriving Repr, DecidableEq

/-- Insertion-order-preserving upsert into an association list: an existing
key is updated in place (its value incremented), a new key is appended at
the end.  This is exactly the behaviour of the JavaScript pattern
m[k] = (m[k] or 0) + v on a string-keyed object. -/
def upsertAdd {α : Type} [Add α] : List (String × α) → String → α → List (String × α)
  | [], k, v => [(k, v)]
  | (k', v') :: rest, k, v =>
      if k' = k then (k', v' + v) :: rest else (k', v') :: upsertAdd rest k v

/-- Key normalisation loop shared by normalizeResult and saveResult in
lib/firestore.ts: every raw key is mapped through normalizePartyKey and
collisions are merged by summing. -/
def normalizeVotes (pv : List (String × Int)) : List (String × Int) :=
  pv.foldl (fun acc kv => upsertAdd acc (normalizePartyKey kv.1) kv.2) []

/-- Sum of the values of a vote mapping. -/
def votesSum (pv : List (String × Int)) : Int :=
  (pv.map Prod.snd).sum

/-- calculateAllianceVotes from lib/alliances.ts: fold each entry into
exactly one of the three buckets; unknown parties and parties outside the
bnp/jamaat alliances accumulate into others. -/
def calculateAllianceVotes (pv : List (String × Int)) : AllianceVotes :=
  pv.foldl (fun av kv =>
    match getPartyById kv.1 with
    | none => { av with others := av.others + kv.2 }
    | some party =>
        if party.allianceId == some "bnp" then { av with bnp := av.bnp + kv.2 }
        else if party.allianceId == some "jamaat" then { av with jamaat := av.jamaat + kv.2 }
        else { av with others := av.others + kv.2 })
    { bnp := 0, jamaat := 0, others := 0 }

/-- getWinnerAllianceId from lib/alliances.ts.  A null or empty winner id is
falsy in the source and yields null; an unknown party yields "others". -/
def getWinnerAllianceId (winnerPartyId : Option String) : Option String :=
  match winnerPartyId with
  | none => none
  | some w =>
      if w = "" then none
      else
        match getPartyById w with
        | none => some "others"
        | some party =>
            if party.allianceId == some "bnp" then some "bnp"
            else if party.allianceId == some "jamaat" then some "jamaat"
            else some "others"

/-- Canonical per-constituency Result, from types/index.ts.  The updatedAt
Date is embedded as a Nat timestamp. -/
structure Result where
  id : String
  constituencyId : String
  partyVotes : List (String × Int)
  allianceVotes : AllianceVotes
  winnerPartyId : Option String
  winnerAllianceId : Option String
  winnerCandidateId : Option String
  totalVotes : Int
  margin : Int
  marginPercentage : Rat
  status : Status
  updatedAt : Nat
  updatedBy : String
deriving Repr, DecidableEq

/-- Raw stored record as read back from the document store: every field may
be missing.  The stored winnerAllianceId and allianceVotes are carried so
that theorems can state that normalizeResult ignores them. -/
structure RawResult where
  constituencyId : Option String
  partyVotes : Option (List (String × Int))
  allianceVotes : Option AllianceVotes
  winnerPartyId : Option String
  winnerAllianceId : Option String
  winnerCandidateId : Option String
  totalVotes : Option Int
  margin : Option Int
  marginPercentage : Option Rat
  status : Option Status
  updatedAt : Option Nat
  updatedBy : Option String
deriving Repr, DecidableEq

/-- normalizeResult from lib/firestore.ts.  Missing fields fall back exactly
as the source "or" defaults do (an empty string is falsy in the source, so
string fields guard on it); winnerAllianceId is always recomputed from the
normalized winner and status, never read from the stored record.  The
current clock (used when updatedAt is missing) is passed in as now. -/
def normalizeResult (raw : RawResult) (docId : String) (now : Nat) : Result :=
  let rawPartyVotes := raw.partyVotes.getD []
  let partyVotes := normalizeVotes rawPartyVotes
  let winnerPartyId : Option String :=
    match raw.winnerPartyId with
    | some s => if s = "" then none else some (normalizePartyKey s)
    | none => none
  let status := raw.status.getD Status.pending
  let winnerAllianceId : Option String :=
    match winnerPartyId with
    | some w =>
        if status = Status.completed then getWinnerAllianceId (some w) else none
    | none => none
  { id := docId
    constituencyId :=
      match raw.constituencyId with
      | some s => if s = "" then docId else s
      | none => docId
    partyVotes := partyVotes
    allianceVotes := calculateAllianceVotes partyVotes
    winnerPartyId := winnerPartyId
    winnerAllianceId := winnerAllianceId
    winnerCandidateId :=
      match raw.winnerCandidateId with
      | some s => if s = "" then none else some s
      | none => none
    totalVotes := raw.totalVotes.getD 0
    margin := raw.margin.getD 0
    marginPercentage := raw.marginPercentage.getD 0
    status := status
    updatedAt := raw.updatedAt.getD now
    updatedBy := raw.updatedBy.getD "" }

/-- Stable insertion step: the incoming element x (later in the original
array) is placed after every element y for which keep y x holds.  With a
keep relation matching a JavaScript sort comparator this reproduces
Array.prototype.sort, which is stable. -/
def insertKeep {α : Type} (keep : α → α → Bool) (x : α) : List α → List α
  | [] => [x]
  | y :: ys => if keep y x then y :: insertKeep keep x ys else x :: y :: ys

/-- Stable sort as a left fold of stable insertions. -/
def stableSortBy {α : Type} (keep : α → α → Bool) (l : List α) : List α :=
  l.foldl (fun acc x => insertKeep keep x acc) []

/-- Keep relation for the vote-descending sorts written in the source as
sort of (a, b) to b - a over Object.entries: an earlier entry y stays in
front of a later entry x unless x has strictly more votes. -/
def keepVotes (y x : String × Int) : Bool :=
  decide (x.2 ≤ y.2)

/-- Payload of the admin write path, from lib/firestore.ts (the source type
restricts status to the "partial" and "completed" strings). -/
structure SaveResultPayload where
  constituencyId : String
  partyVotes : List (String × Int)
  status : Status
  adminUid : String
deriving Repr, DecidableEq

/-- Pure result-document computation of saveResult from lib/firestore.ts:
key normalisation with merge, total, stable vote-descending sort, winner,
margin, guarded margin percentage and alliance roll-up.  The Firestore
document-id fallback lookup and the setDoc call are external I/O and do not
feed the computed fields; serverTimestamp is passed in as now. -/
def saveResultCore (payload : SaveResultPayload) (now : Nat) : Result :=
  let partyVotes := normalizeVotes payload.partyVotes
  let totalVotes := votesSum partyVotes
  let sortedParties := stableSortBy keepVotes partyVotes
  let winnerId : Option String :=
    match sortedParties.head? with
    | some kv => if kv.1 = "" then none else some kv.1
    | none => none
  let winnerVotes : Int :=
    match sortedParties.head? with
    | some kv => kv.2
    | none => 0
  let runnerUpVotes : Int :=
    match sortedParties with
    | _ :: kv :: _ => kv.2
    | _ => 0
  let margin := winnerVotes - runnerUpVotes
  let marginPercentage : Rat :=
    if totalVotes > 0 then (margin : Rat) / (totalVotes : Rat) * 100 else 0
  { id := payload.constituencyId
    constituencyId := payload.constituencyId
    partyVotes := partyVotes
    allianceVotes := calculateAllianceVotes partyVotes
    winnerPartyId := if payload.status = Status.completed then winnerId else none
    winnerAllianceId :=
      if payload.status = Status.completed then getWinnerAllianceId winnerId else none
    winnerCandidateId := none
    totalVotes := totalVotes
    margin := margin
    marginPercentage := marginPercentage
    status := payload.status
    updatedAt := now
    updatedBy := payload.adminUid }

/-- Per-party national tally, from types/index.ts. -/
structure SeatCount where
  partyId : String
  partyName : String
  partyColor : String
  seats : Nat
  leadingSeats : Nat
  totalVotes : Int
  votePercentage : Rat
  allianceId : Option String
deriving Repr, DecidableEq

/-- Keyed record write seatCounts[id] = sc of updateElectionSummary: an
existing entry is replaced in place, a new one is appended. -/
def setSC (l : List SeatCount) (sc : SeatCount) : List SeatCount :=
  if l.any (fun x => x.partyId == sc.partyId) then
    l.map (fun x => if x.partyId == sc.partyId then sc else x)
  else l ++ [sc]

/-- Zero-valued seat count for a party, the initialisation record of
updateElectionSummary. -/
def zeroSeatCount (p : Party) : SeatCount :=
  { partyId := p.id, partyName := p.name, partyColor := p.color,
    seats := 0, leadingSeats := 0, totalVotes := 0, votePercentage := 0,
    allianceId := none }

/-- Zero-valued seat counts for every known party, the initialisation loop
of updateElectionSummary. -/
def initSeatCounts (ps : List Party) : List SeatCount :=
  ps.foldl (fun acc p => setSC acc (zeroSeatCount p)) []

/-- Guarded in-place update seatCounts[pid].totalVotes += v: a no-op when
the key is absent, exactly like the if (seatCounts[partyId]) guard. -/
def bumpVotes (l : List SeatCount) (pid : String) (v : Int) : List SeatCount :=
  l.map (fun sc => if sc.partyId == pid then { sc with totalVotes := sc.totalVotes + v } else sc)

/-- Guarded in-place update seatCounts[pid].seats += 1. -/
def bumpSeats (l : List SeatCount) (pid : String) : List SeatCount :=
  l.map (fun sc => if sc.partyId == pid then { sc with seats := sc.seats + 1 } else sc)

/-- Guarded in-place update seatCounts[pid].leadingSeats += 1. -/
def bumpLeading (l : List SeatCount) (pid : String) : List SeatCount :=
  l.map (fun sc => if sc.partyId == pid then { sc with leadingSeats := sc.leadingSeats + 1 } else sc)

/-- Accumulator of the results loop in updateElectionSummary. -/
structure AggState where
  seatCounts : List SeatCount
  totalVotesCast : Int
  declaredSeats : Nat
deriving Repr

/-- One iteration of the results loop in updateElectionSummary: add the
result total to the national total, add each partyVotes entry to the
matching seat count, then either count a declared seat (completed with a
truthy winner) or a leading seat for the top vote-getter (status partial,
encoded ongoing). -/
def stepResult (st : AggState) (r : Result) : AggState :=
  let tvc := st.totalVotesCast + r.totalVotes
  let scs := r.partyVotes.foldl (fun acc kv => bumpVotes acc kv.1 kv.2) st.seatCounts
  match r.status, r.winnerPartyId with
  | Status.completed, some w =>
      if w = "" then { seatCounts := scs, totalVotesCast := tvc, declaredSeats := st.declaredSeats }
      else { seatCounts := bumpSeats scs w, totalVotesCast := tvc, declaredSeats := st.declaredSeats + 1 }
  | Status.ongoing, _ =>
      match (stableSortBy keepVotes r.partyVotes).head? with
      | some kv => { seatCounts := bumpLeading scs kv.1, totalVotesCast := tvc, declaredSeats := st.declaredSeats }
      | none => { seatCounts := scs, totalVotesCast := tvc, declaredSeats := st.declaredSeats }
  | _, _ => { seatCounts := scs, totalVotesCast := tvc, declaredSeats := st.declaredSeats }

/-- Keep relation for the summary ordering, comparator
b.seats - a.seats or else b.totalVotes - a.totalVotes. -/
def keepSeatsVotes (y x : SeatCount) : Bool :=
  if y.seats = x.seats then decide (x.totalVotes ≤ y.totalVotes)
  else decide (x.seats < y.seats)

/-- National summary document, from types/index.ts. -/
structure ElectionSummary where
  totalSeats : Nat
  declaredSeats : Nat
  requiredMajority : Nat
  partySeatCounts : List SeatCount
  totalVotesCast : Int
  totalRegisteredVoters : Int
  nationalTurnout : Rat
  lastUpdated : Nat
deriving Repr, DecidableEq

/-- Pure recomputation of updateElectionSummary from lib/firestore.ts over a
fetched snapshot of results and parties.  The registered-voter constant is
passed in (Modelled from the spec: ELECTION_CONFIG.TOTAL_REGISTERED_VOTERS
is referenced by the source but its defining constants module revision is
missing from the repository tree); serverTimestamp is passed in as now. -/
def updateElectionSummaryCore (results : List Result) (ps : List Party)
    (totalRegisteredVoters : Int) (now : Nat) : ElectionSummary :=
  let st := results.foldl stepResult
    { seatCounts := initSeatCounts ps, totalVotesCast := 0, declaredSeats := 0 }
  let scs := st.seatCounts.map (fun sc =>
    { sc with votePercentage :=
        if st.totalVotesCast > 0 then (sc.totalVotes : Rat) / (st.totalVotesCast : Rat) * 100
        else 0 })
  { totalSeats := 300
    declaredSeats := st.declaredSeats
    requiredMajority := 151
    partySeatCounts :=
      stableSortBy keepSeatsVotes
        (scs.filter (fun sc =>
          decide (0 < sc.seats) || decide (0 < sc.leadingSeats) || decide (0 < sc.totalVotes)))
    totalVotesCast := st.totalVotesCast
    totalRegisteredVoters := totalRegisteredVoters
    nationalTurnout :=
      if totalRegisteredVoters > 0 then
        (st.totalVotesCast : Rat) / (totalRegisteredVoters : Rat) * 100
      else 0
    lastUpdated := now }

/-- Per-alliance national tally, from types/index.ts. -/
structure AllianceSeatCount where
  allianceId : String
  allianceName : String
  allianceColor : String
  seats : Nat
  leadingSeats : Nat
  totalVotes : Int
  votePercentage : Rat
  parties : List SeatCount
deriving Repr, DecidableEq

/-- Per-alliance keyed tallies of aggregateAllianceSeatCounts. -/
structure AllianceTally where
  seats : List (String × Nat)
  leadingSeats : List (String × Nat)
  votes : List (String × Int)
deriving Repr, DecidableEq

/-- The three-key allianceData record of aggregateAllianceSeatCounts. -/
structure AllianceData where
  bnp : AllianceTally
  jamaat : AllianceTally
  others : AllianceTally
deriving Repr, DecidableEq

/-- Read allianceData[aid].  Results produced by normalizeResult and
saveResult only ever carry the keys bnp, jamaat, others or null (null is
replaced by "others" before the read), so the selection is total here. -/
def adGet (d : AllianceData) (aid : String) : AllianceTally :=
  if aid = "bnp" then d.bnp else if aid = "jamaat" then d.jamaat else d.others

/-- Write allianceData[aid]. -/
def adSet (d : AllianceData) (aid : String) (t : AllianceTally) : AllianceData :=
  if aid = "bnp" then { d with bnp := t }
  else if aid = "jamaat" then { d with jamaat := t }
  else { d with others := t }

/-- One iteration of the results loop in aggregateAllianceSeatCounts: a
result with a falsy winnerPartyId is skipped entirely; otherwise a seat or
leading seat is tallied under winnerAllianceId (null falls back to others)
and every partyVotes entry with a known party is tallied under that party
and its own alliance (entries with unknown parties are skipped). -/
def stepAlliance (d : AllianceData) (r : Result) : AllianceData :=
  let aid : String :=
    match r.winnerAllianceId with
    | some a => if a = "" then "others" else a
    | none => "others"
  match r.winnerPartyId with
  | none => d
  | some pid =>
      if pid = "" then d
      else
        let d1 :=
          if r.status = Status.completed then
            adSet d aid { adGet d aid with seats := upsertAdd (adGet d aid).seats pid 1 }
          else if r.status = Status.ongoing then
            adSet d aid { adGet d aid with leadingSeats := upsertAdd (adGet d aid).leadingSeats pid 1 }
          else d
        r.partyVotes.foldl (fun acc kv =>
          match getPartyById kv.1 with
          | none => acc
          | some party =>
              let pa : String :=
                if party.allianceId == some "bnp" then "bnp"
                else if party.allianceId == some "jamaat" then "jamaat"
                else "others"
              adSet acc pa { adGet acc pa with votes := upsertAdd (adGet acc pa).votes kv.1 kv.2 }) d1

/-- Lookup with default, the JavaScript pattern m[k] or 0. -/
def lookupD {α : Type} (m : List (String × α)) (k : String) (d : α) : α :=
  match m.find? (fun kv => kv.1 == k) with
  | some kv => kv.2
  | none => d

/-- Insertion-order set union of key lists, the Set construction over the
three key collections in aggregateAllianceSeatCounts. -/
def dedupKeys (l : List String) : List String :=
  l.foldl (fun acc k => if acc.contains k then acc else acc ++ [k]) []

/-- Keep relation for the member-party ordering, comparator
b.seats - a.seats (and nothing else). -/
def keepSeats (y x : SeatCount) : Bool :=
  decide (x.seats ≤ y.seats)

/-- Per-alliance output entry of aggregateAllianceSeatCounts: the body of
the Object.entries(alliances).map callback. -/
def buildAllianceEntry (d : AllianceData) (totalVotesCast : Int) (al : Alliance) :
    AllianceSeatCount :=
  let t := adGet d al.id
  let allPartyIds := dedupKeys
    (t.seats.map Prod.fst ++ t.leadingSeats.map Prod.fst ++ t.votes.map Prod.fst)
  let partyBreakdowns : List SeatCount := allPartyIds.filterMap (fun pid =>
    match getPartyById pid with
    | none => none
    | some party => some
        { partyId := party.id, partyName := party.shortName, partyColor := party.color,
          seats := lookupD t.seats pid 0,
          leadingSeats := lookupD t.leadingSeats pid 0,
          totalVotes := lookupD t.votes pid 0,
          votePercentage :=
            if totalVotesCast > 0 then
              ((lookupD t.votes pid 0 : Int) : Rat) / (totalVotesCast : Rat) * 100
            else 0,
          allianceId := party.allianceId })
  let totalSeats := (t.seats.map Prod.snd).sum
  let totalLeading := (t.leadingSeats.map Prod.snd).sum
  let totalVotes := (t.votes.map Prod.snd).sum
  { allianceId := al.id
    allianceName := al.name
    allianceColor := al.color
    seats := totalSeats
    leadingSeats := totalLeading
    totalVotes := totalVotes
    votePercentage :=
      if totalVotesCast > 0 then (totalVotes : Rat) / (totalVotesCast : Rat) * 100
      else 0
    parties := stableSortBy keepSeats partyBreakdowns }

/-- aggregateAllianceSeatCounts from lib/alliances.ts. -/
def aggregateAllianceSeatCounts (results : List Result) : List AllianceSeatCount :=
  let d := results.foldl stepAlliance
    { bnp := { seats := [], leadingSeats := [], votes := [] },
      jamaat := { seats := [], leadingSeats := [], votes := [] },
      others := { seats := [], leadingSeats := [], votes := [] } }
  let totalVotesCast : Int := (results.map Result.totalVotes).sum
  alliances.map (buildAllianceEntry d totalVotesCast)

/-- Sum of the three alliance buckets. -/
def avSum (av : AllianceVotes) : Int :=
  av.bnp + av.jamaat + av.others

/-- Keys of an association list. -/
def keysOf {α : Type} (m : List (String × α)) : List String :=
  m.map Prod.fst

/-- Sum of the per-party vote totals of a seat-count list. -/
def scSum (l : List SeatCount) : Int :=
  (l.map SeatCount.totalVotes).sum

/-- Party ids of a seat-count list. -/
def scIds (l : List SeatCount) : List String :=
  l.map SeatCount.partyId

/-- Leader-selection step: keep the current leader unless the incoming
entry has strictly more votes. -/
def leadStep (h : Option (String × Int)) (z : String × Int) : Option (String × Int) :=
  some (match h with
        | none => z
        | some x => if keepVotes x z then x else z)

/-- First entry attaining the maximum vote count, in insertion order.  This
is the head the stable vote-descending sort produces, i.e. the tie-break
the source actually implements. -/
def runLeader (l : List (String × Int)) : Option (String × Int) :=
  l.foldl leadStep none

/-! Helper lemmas about the association-list and sorting primitives. -/

theorem votesSum_nil : votesSum [] = 0 := rfl

theorem votesSum_cons (kv : String × Int) (l : List (String × Int)) :
    votesSum (kv :: l) = kv.2 + votesSum l := by
  simp [votesSum]

theorem upsertAdd_snd_sum {α : Type} [AddCommMonoid α]
    (m : List (String × α)) (k : String) (v : α) :
    ((upsertAdd m k v).map Prod.snd).sum = (m.map Prod.snd).sum + v := by
  induction m with
  | nil => simp [upsertAdd]
  | cons kv rest ih =>
      obtain ⟨k', v'⟩ := kv
      by_cases h : k' = k
      · simp [upsertAdd, h, add_assoc, add_comm v]
      · simp [upsertAdd, h, ih, add_assoc]

theorem foldl_upsert_sum (pv : List (String × Int)) :
    ∀ acc : List (String × Int),
      votesSum (pv.foldl (fun a kv => upsertAdd a (normalizePartyKey kv.1) kv.2) acc) =
        votesSum acc + votesSum pv := by
  induction pv with
  | nil => intro acc; simp [votesSum]
  | cons kv pv ih =>
      intro acc
      rw [List.foldl_cons, ih, votesSum_cons]
      have := upsertAdd_snd_sum acc (normalizePartyKey kv.1) kv.2
      simp only [votesSum] at *
      omega

theorem normalizeVotes_sum (pv : List (String × Int)) :
    votesSum (normalizeVotes pv) = votesSum pv := by
  simpa [votesSum] using foldl_upsert_sum pv []

theorem calculateAllianceVotes_sum (pv : List (String × Int)) :
    avSum (calculateAllianceVotes pv) = votesSum pv := by
  suffices h : ∀ (l : List (String × Int)) (av : AllianceVotes),
      avSum (l.foldl (fun av kv =>
        match getPartyById kv.1 with
        | none => { av with others := av.others + kv.2 }
        | some party =>
            if party.allianceId == some "bnp" then { av with bnp := av.bnp + kv.2 }
            else if party.allianceId == some "jamaat" then { av with jamaat := av.jamaat + kv.2 }
            else { av with others := av.others + kv.2 }) av) = avSum av + votesSum l by
    simpa [calculateAllianceVotes, avSum] using h pv { bnp := 0, jamaat := 0, others := 0 }
  intro l
  induction l with
  | nil => intro av; simp [votesSum]
  | cons kv l ih =>
      intro av
      rw [List.foldl_cons, ih, votesSum_cons]
      rcases hp : getPartyById kv.1 with _ | party
      · simp [avSum]; omega
      · by_cases hb : party.allianceId == some "bnp"
        · simp [hb, avSum]; omega
        · by_cases hj : party.allianceId == some "jamaat"
          · simp [hb, hj, avSum]; omega
          · simp [hb, hj, avSum]; omega

theorem insertKeep_perm {α : Type} (keep : α → α → Bool) (x : α) (l : List α) :
    List.Perm (insertKeep keep x l) (x :: l) := by
  induction l with
  | nil => exact List.Perm.refl _
  | cons y ys ih =>
      by_cases h : keep y x
      · simp only [insertKeep, h, if_true]
        exact (ih.cons y).trans (List.Perm.swap x y ys)
      · simp only [insertKeep, h, if_false]
        exact List.Perm.refl _

theorem stableSortBy_perm {α : Type} (keep : α → α → Bool) (l : List α) :
    List.Perm (stableSortBy keep l) l := by
  suffices h : ∀ (l acc : List α),
      List.Perm (l.foldl (fun a x => insertKeep keep x a) acc) (acc ++ l) by
    simpa using h l []
  intro l
  induction l with
  | nil => intro acc; simp
  | cons x l ih =>
      intro acc
      rw [List.foldl_cons]
      refine (ih _).trans ?_
      refine (List.Perm.append_right l (insertKeep_perm keep x acc)).trans ?_
      exact List.perm_middle.symm

theorem insertKeep_head? {α : Type} (keep : α → α → Bool) (x : α) (l : List α) :
    (insertKeep keep x l).head? =
      some (match l.head? with
            | none => x
            | some y => if keep y x then y else x) := by
  cases l with
  | nil => rfl
  | cons y ys =>
      by_cases h : keep y x <;> simp [insertKeep, h]

theorem stableSortBy_head? {α : Type} (keep : α → α → Bool) (l : List α) :
    (stableSortBy keep l).head? =
      l.foldl (fun h x =>
        some (match h with
              | none => x
              | some y => if keep y x then y else x)) none := by
  suffices haux : ∀ (l acc : List α),
      (l.foldl (fun a x => insertKeep keep x a) acc).head? =
        l.foldl (fun h x =>
          some (match h with
                | none => x
                | some y => if keep y x then y else x)) acc.head? by
    simpa using haux l []
  intro l
  induction l with
  | nil => intro acc; rfl
  | cons x l ih =>
      intro acc
      rw [List.foldl_cons, List.foldl_cons, ih, insertKeep_head?]

theorem sortedVotes_head? (l : List (String × Int)) :
    (stableSortBy keepVotes l).head? = runLeader l := by
  rw [stableSortBy_head?, runLeader]
  congr 1
  funext h x
  cases h <;> rfl

theorem leadStep_keepLeader (w : String × Int) (z : String × Int) (hz : z.2 < w.2) :
    leadStep (some w) z = some w := by
  have : keepVotes w z = true := by
    simp [keepVotes]
    omega
  simp [leadStep, this]

theorem foldl_leadStep_keepLeader (w : String × Int) :
    ∀ l : List (String × Int), (∀ kv ∈ l, kv.2 < w.2) →
      l.foldl leadStep (some w) = some w := by
  intro l
  induction l with
  | nil => intro _; rfl
  | cons z l ih =>
      intro hl
      rw [List.foldl_cons, leadStep_keepLeader w z (hl z (List.mem_cons_self z l))]
      exact ih (fun kv hkv => hl kv (List.mem_cons_of_mem z hkv))

theorem foldl_leadStep_below (c : Int) :
    ∀ (l : List (String × Int)) (h : Option (String × Int)),
      (∀ kv ∈ l, kv.2 < c) → (∀ x, h = some x → x.2 < c) →
      ∀ x, l.foldl leadStep h = some x → x.2 < c := by
  intro l
  induction l with
  | nil => intro h _ hh x hx; exact hh x hx
  | cons z l ih =>
      intro h hl hh x hx
      rw [List.foldl_cons] at hx
      refine ih (leadStep h z) (fun kv hkv => hl kv (List.mem_cons_of_mem z hkv)) ?_ x hx
      intro y hy
      cases h with
      | none =>
          simp [leadStep] at hy
          rw [← hy]
          exact hl z (List.mem_cons_self z l)
      | some u =>
          simp [leadStep] at hy
          by_cases hk : keepVotes u z
          · simp [hk] at hy
            rw [← hy]
            exact hh u rfl
          · simp [hk] at hy
            rw [← hy]
            exact hl z (List.mem_cons_self z l)

theorem runLeader_strict (l1 l2 : List (String × Int)) (w : String × Int)
    (h1 : ∀ kv ∈ l1, kv.2 < w.2) (h2 : ∀ kv ∈ l2, kv.2 < w.2) :
    runLeader (l1 ++ w :: l2) = some w := by
  rw [runLeader, List.foldl_append, List.foldl_cons]
  have hbelow : ∀ x, l1.foldl leadStep none = some x → x.2 < w.2 :=
    foldl_leadStep_below w.2 l1 none h1 (fun x hx => by cases hx)
  have hw : leadStep (l1.foldl leadStep none) w = some w := by
    cases hf : l1.foldl leadStep none with
    | none => rfl
    | some u =>
        have hu := hbelow u hf
        have : keepVotes u w = false := by
          simp [keepVotes]
          omega
        simp [leadStep, this]
  rw [hw]
  exact foldl_leadStep_keepLeader w l2 h2

theorem upsertAdd_keys {α : Type} [Add α] (m : List (String × α)) (k : String) (v : α) :
    keysOf (upsertAdd m k v) =
      if k ∈ keysOf m then keysOf m else keysOf m ++ [k] := by
  induction m with
  | nil => simp [upsertAdd, keysOf]
  | cons kv rest ih =>
      obtain ⟨k', v'⟩ := kv
      simp only [keysOf] at ih ⊢
      by_cases h : k' = k
      · simp [upsertAdd, h]
      · have hne : ¬ (k = k') := fun hc => h hc.symm
        simp only [upsertAdd, h, if_false, List.map_cons]
        rw [ih]
        by_cases hm : k ∈ rest.map Prod.fst
        · simp [hm, hne]
        · simp [hm, hne]

theorem upsertAdd_keys_nodup {α : Type} [Add α]
    (m : List (String × α)) (k : String) (v : α)
    (h : (keysOf m).Nodup) : (keysOf (upsertAdd m k v)).Nodup := by
  rw [upsertAdd_keys]
  by_cases hm : k ∈ keysOf m
  · simpa [hm] using h
  · simp [hm, List.nodup_append, h]

theorem upsertAdd_keys_mem {α : Type} [Add α]
    (m : List (String × α)) (k : String) (v : α) (k' : String)
    (h : k' ∈ keysOf (upsertAdd m k v)) : k' ∈ keysOf m ∨ k' = k := by
  rw [upsertAdd_keys] at h
  by_cases hm : k ∈ keysOf m
  · simp [hm] at h
    exact Or.inl h
  · simp [hm] at h
    exact h

theorem normalizePartyKey_ne_empty (s : String) : normalizePartyKey s ≠ "" := by
  rw [normalizePartyKey]
  cases hf : parties.find? (fun p =>
      strLower p.id == strLower s || strLower p.name == strLower s) with
  | none => decide
  | some p =>
      have hp : p ∈ parties := List.mem_of_find?_eq_some hf
      have hall : ∀ q ∈ parties, q.id ≠ "" := by decide
      exact hall p hp

theorem normalizeVotes_keys_nodup (pv : List (String × Int)) :
    (keysOf (normalizeVotes pv)).Nodup := by
  suffices h : ∀ (l acc : List (String × Int)), (keysOf acc).Nodup →
      (keysOf (l.foldl (fun a kv => upsertAdd a (normalizePartyKey kv.1) kv.2) acc)).Nodup by
    exact h pv [] (by simp [keysOf])
  intro l
  induction l with
  | nil => intro acc hacc; exact hacc
  | cons kv l ih =>
      intro acc hacc
      rw [List.foldl_cons]
      exact ih _ (upsertAdd_keys_nodup _ _ _ hacc)

theorem normalizeVotes_keys_ne_empty (pv : List (String × Int)) :
    ∀ k ∈ keysOf (normalizeVotes pv), k ≠ "" := by
  suffices h : ∀ (l acc : List (String × Int)), (∀ k ∈ keysOf acc, k ≠ "") →
      ∀ k ∈ keysOf (l.foldl (fun a kv => upsertAdd a (normalizePartyKey kv.1) kv.2) acc),
        k ≠ "" by
    exact h pv [] (by simp [keysOf])
  intro l
  induction l with
  | nil => intro acc hacc; exact hacc
  | cons kv l ih =>
      intro acc hacc
      rw [List.foldl_cons]
      refine ih _ ?_
      intro k hk
      rcases upsertAdd_keys_mem _ _ _ k hk with hm | he
      · exact hacc k hm
      · rw [he]
        exact normalizePartyKey_ne_empty kv.1

/-! Claim theorems. -/

/-- C1 counterexample: on a tie for the greatest count the save path does
not pick the lexically-first tied canonical id.  With the completed tally
bnp: 10, al: 10 (two canonical ids, tied, "al" lexically first) the winner
is "bnp", the id occurring first in the input mapping. -/
theorem C1_lexical_tiebreak_counterexample :
    (saveResultCore
      { constituencyId := "dhaka-1", partyVotes := [("bnp", 10), ("al", 10)],
        status := Status.completed, adminUid := "admin1" } 0).winnerPartyId = some "bnp" ∧
    (saveResultCore
      { constituencyId := "dhaka-1", partyVotes := [("bnp", 10), ("al", 10)],
        status := Status.completed, adminUid := "admin1" } 0).partyVotes =
      [("bnp", 10), ("al", 10)] ∧
    "al".data < "bnp".data := by
  refine ⟨by decide, by decide, by decide⟩

/-- C1 (amended): for a completed save, winnerPartyId is the first entry of
the normalized mapping attaining the maximum vote count, in insertion
order; in particular, when one canonical id has strictly more votes than
every other it is the winner.  Ties are broken by insertion order of the
input mapping, not lexically. -/
theorem C1_winner_insertion_order (p : SaveResultPayload) (now : Nat)
    (hst : p.status = Status.completed) :
    ((saveResultCore p now).winnerPartyId =
      (match runLeader (normalizeVotes p.partyVotes) with
       | some kv => if kv.1 = "" then none else some kv.1
       | none => none)) ∧
    (∀ w v, (w, v) ∈ normalizeVotes p.partyVotes →
      (∀ kv ∈ normalizeVotes p.partyVotes, kv.1 ≠ w → kv.2 < v) →
      (saveResultCore p now).winnerPartyId = some w) := by
  have hbase : (saveResultCore p now).winnerPartyId =
      (match runLeader (normalizeVotes p.partyVotes) with
       | some kv => if kv.1 = "" then none else some kv.1
       | none => none) := by
    simp only [saveResultCore, hst, if_true, reduceIte, sortedVotes_head?]
  refine ⟨hbase, ?_⟩
  intro w v hmem hmax
  obtain ⟨l1, l2, hsplit⟩ := List.append_of_mem hmem
  have hnd := normalizeVotes_keys_nodup p.partyVotes
  rw [hsplit] at hnd
  simp only [keysOf, List.map_append, List.map_cons] at hnd
  have h2 := List.nodup_append.mp hnd
  have hw2 : w ∉ l2.map Prod.fst := (List.nodup_cons.mp h2.2.1).1
  have hw1 : w ∉ l1.map Prod.fst := fun hc => (h2.2.2 hc) (List.mem_cons_self w _)
  have hlt1 : ∀ kv ∈ l1, kv.2 < v := by
    intro kv hkv
    refine hmax kv ?_ ?_
    · rw [hsplit]
      exact List.mem_append_left _ hkv
    · intro hc
      exact hw1 (hc ▸ List.mem_map_of_mem Prod.fst hkv)
  have hlt2 : ∀ kv ∈ l2, kv.2 < v := by
    intro kv hkv
    refine hmax kv ?_ ?_
    · rw [hsplit]
      exact List.mem_append_right _ (List.mem_cons_of_mem _ hkv)
    · intro hc
      exact hw2 (hc ▸ List.mem_map_of_mem Prod.fst hkv)
  rw [hbase, hsplit, runLeader_strict l1 l2 (w, v) hlt1 hlt2]
  have hne : w ≠ "" := by
    refine normalizeVotes_keys_ne_empty p.partyVotes w ?_
    rw [hsplit]
    simp [keysOf]
  simp [hne]

/-- C1 witness: the amended winner theorem applied to the completed tally
al: 7, bnp: 3, whose strict maximum is al. -/
theorem C1_winner_insertion_order_witness :
    (saveResultCore
      { constituencyId := "x-1", partyVotes := [("al", 7), ("bnp", 3)],
        status := Status.completed, adminUid := "a" } 5).winnerPartyId = some "al" :=
  (C1_winner_insertion_order
    { constituencyId := "x-1", partyVotes := [("al", 7), ("bnp", 3)],
      status := Status.completed, adminUid := "a" } 5 rfl).2
    "al" 7 (by decide) (by decide)

/-- C3: the save path performs no vote-count validation.  On the input
mapping bnp: -5 it constructs (and would persist) a full Result with
totalVotes -5 and signals nothing to the caller: saveResultCore is a total
function into Result with no error channel, so the negative count flows
into storage instead of being rejected. -/
theorem C3_negative_votes_not_rejected :
    (saveResultCore
      { constituencyId := "dhaka-2", partyVotes := [("bnp", -5)],
        status := Status.completed, adminUid := "admin2" } 0).totalVotes = -5 ∧
    (saveResultCore
      { constituencyId := "dhaka-2", partyVotes := [("bnp", -5)],
        status := Status.completed, adminUid := "admin2" } 0).partyVotes = [("bnp", -5)] ∧
    (saveResultCore
      { constituencyId := "dhaka-2", partyVotes := [("bnp", -5)],
        status := Status.completed, adminUid := "admin2" } 0).margin = -5 := by
  refine ⟨by decide, by decide, by decide⟩

/-- C5 counterexample: the read-path normalizer does not establish
totalVotes == sum(partyVotes.values()); it carries the stored totalVotes
through.  A stored record with partyVotes al: 5 but totalVotes 7 normalizes
to a Result with totalVotes 7 whose partyVotes sum to 5. -/
theorem C5_stored_total_counterexample :
    (normalizeResult
      { constituencyId := none, partyVotes := some [("al", 5)], allianceVotes := none,
        winnerPartyId := none, winnerAllianceId := none, winnerCandidateId := none,
        totalVotes := some 7, margin := none, marginPercentage := none,
        status := none, updatedAt := none, updatedBy := none } "d-1" 0).totalVotes = 7 ∧
    votesSum (normalizeResult
      { constituencyId := none, partyVotes := some [("al", 5)], allianceVotes := none,
        winnerPartyId := none, winnerAllianceId := none, winnerCandidateId := none,
        totalVotes := some 7, margin := none, marginPercentage := none,
        status := none, updatedAt := none, updatedBy := none } "d-1" 0).partyVotes = 5 := by
  refine ⟨by decide, by decide⟩

/-- C5 (amended): every Result produced by the save path satisfies
totalVotes == sum(partyVotes.values()), and key normalisation preserves the
vote total; the read-path normalizer instead preserves the stored
totalVotes (default 0), so for normalized records the equality holds
exactly when the stored total already equals the stored partyVotes sum. -/
theorem C5_total_is_sum_amended :
    (∀ (p : SaveResultPayload) (now : Nat),
      (saveResultCore p now).totalVotes = votesSum ((saveResultCore p now).partyVotes)) ∧
    (∀ pv : List (String × Int), votesSum (normalizeVotes pv) = votesSum pv) ∧
    (∀ (raw : RawResult) (docId : String) (now : Nat),
      (normalizeResult raw docId now).totalVotes = raw.totalVotes.getD 0) := by
  refine ⟨?_, normalizeVotes_sum, ?_⟩
  · intro p now
    rfl
  · intro raw docId now
    rfl

/-- C6 counterexample: for a normalized Result whose stored totalVotes
disagrees with its stored partyVotes sum, the three alliance buckets sum to
the partyVotes sum (5), not to totalVotes (7). -/
theorem C6_alliance_partition_counterexample :
    avSum (normalizeResult
      { constituencyId := none, partyVotes := some [("bnp", 5)], allianceVotes := none,
        winnerPartyId := none, winnerAllianceId := none, winnerCandidateId := none,
        totalVotes := some 7, margin := none, marginPercentage := none,
        status := none, updatedAt := none, updatedBy := none } "d-2" 0).allianceVotes = 5 ∧
    (normalizeResult
      { constituencyId := none, partyVotes := some [("bnp", 5)], allianceVotes := none,
        winnerPartyId := none, winnerAllianceId := none, winnerCandidateId := none,
        totalVotes := some 7, margin := none, marginPercentage := none,
        status := none, updatedAt := none, updatedBy := none } "d-2" 0).totalVotes = 7 := by
  refine ⟨by decide, by decide⟩

/-- C6 (amended): the alliance buckets always partition the partyVotes sum
(bnp + jamaat + others == sum(partyVotes.values())); this equals totalVotes
for every Result produced by the save path, while for normalized stored
records totalVotes is the stored value and may differ. -/
theorem C6_alliance_partition_amended :
    (∀ pv : List (String × Int), avSum (calculateAllianceVotes pv) = votesSum pv) ∧
    (∀ (p : SaveResultPayload) (now : Nat),
      avSum ((saveResultCore p now).allianceVotes) = (saveResultCore p now).totalVotes) ∧
    (∀ (raw : RawResult) (docId : String) (now : Nat),
      avSum ((normalizeResult raw docId now).allianceVotes) =
        votesSum ((normalizeResult raw docId now).partyVotes)) := by
  refine ⟨calculateAllianceVotes_sum, ?_, ?_⟩
  · intro p now
    exact calculateAllianceVotes_sum _
  · intro raw docId now
    exact calculateAllianceVotes_sum _

/-- C7: winnerAllianceId is recomputed from the normalized winner and the
status only.  Two stored records that differ only in their persisted
winnerAllianceId normalize to identical Results, and the output
winnerAllianceId is the alliance of the output winner when the output
status is completed, else null. -/
theorem C7_winner_alliance_recomputed :
    (∀ (raw : RawResult) (a : Option String) (docId : String) (now : Nat),
      normalizeResult { raw with winnerAllianceId := a } docId now =
        normalizeResult raw docId now) ∧
    (∀ (raw : RawResult) (docId : String) (now : Nat),
      (normalizeResult raw docId now).winnerAllianceId =
        (if (normalizeResult raw docId now).status = Status.completed then
          getWinnerAllianceId ((normalizeResult raw docId now).winnerPartyId)
        else none)) := by
  constructor
  · intro raw a docId now
    rfl
  · intro raw docId now
    rcases hw : raw.winnerPartyId with _ | s
    · simp [normalizeResult, hw, getWinnerAllianceId]
    · by_cases hs : s = ""
      · simp [normalizeResult, hw, hs, getWinnerAllianceId]
      · simp only [normalizeResult, hw, hs, if_false, reduceIte]

/-- C10: the read-path normalizer is total on arbitrary stored records and
applies the documented defaults when fields are missing: empty partyVotes,
status pending, zero totals, null winner ids.  Totality is inherent: the
embedding of normalizeResult is a total function, mirroring the source
fallbacks on every field. -/
theorem C10_normalizer_total_defaults :
    ∀ (raw : RawResult) (docId : String) (now : Nat),
      (raw.partyVotes = none → (normalizeResult raw docId now).partyVotes = []) ∧
      (raw.status = none → (normalizeResult raw docId now).status = Status.pending) ∧
      (raw.totalVotes = none → (normalizeResult raw docId now).totalVotes = 0) ∧
      (raw.margin = none → (normalizeResult raw docId now).margin = 0) ∧
      (raw.marginPercentage = none → (normalizeResult raw docId now).marginPercentage = 0) ∧
      (raw.winnerPartyId = none → (normalizeResult raw docId now).winnerPartyId = none) ∧
      (raw.winnerCandidateId = none → (normalizeResult raw docId now).winnerCandidateId = none) := by
  intro raw docId now
  refine ⟨?_, ?_, ?_, ?_, ?_, ?_, ?_⟩ <;>
    intro h <;> simp [normalizeResult, h, normalizeVotes]

/-- C10 witness: the defaults theorem applied to the fully-missing record. -/
theorem C10_normalizer_total_defaults_witness :
    (normalizeResult
      { constituencyId := none, partyVotes := none, allianceVotes := none,
        winnerPartyId := none, winnerAllianceId := none, winnerCandidateId := none,
        totalVotes := none, margin := none, marginPercentage := none,
        status := none, updatedAt := none, updatedBy := none } "c-1" 9).partyVotes = [] ∧
    (normalizeResult
      { constituencyId := none, partyVotes := none, allianceVotes := none,
        winnerPartyId := none, winnerAllianceId := none, winnerCandidateId := none,
        totalVotes := none, margin := none, marginPercentage := none,
        status := none, updatedAt := none, updatedBy := none } "c-1" 9).status = Status.pending ∧
    (normalizeResult
      { constituencyId := none, partyVotes := none, allianceVotes := none,
        winnerPartyId := none, winnerAllianceId := none, winnerCandidateId := none,
        totalVotes := none, margin := none, marginPercentage := none,
        status := none, updatedAt := none, updatedBy := none } "c-1" 9).winnerPartyId = none := by
  refine ⟨(C10_normalizer_total_defaults _ "c-1" 9).1 rfl,
    ((C10_normalizer_total_defaults _ "c-1" 9).2.1 rfl),
    ((C10_normalizer_total_defaults _ "c-1" 9).2.2.2.2.2.1 rfl)⟩

/-- C4 counterexample: the summary recomputation does not route votes for a
party id absent from its party list into any bucket; it drops them from
every per-party total while still counting them in totalVotesCast.  One
result carrying 7 votes under the unknown id "zzz-front", aggregated
against the full party table, yields an empty partySeatCounts (the votes
appear in no bucket) and totalVotesCast 7. -/
theorem C4_summary_drops_unknown_counterexample :
    (updateElectionSummaryCore
      [{ id := "d-1", constituencyId := "d-1", partyVotes := [("zzz-front", 7)],
         allianceVotes := { bnp := 0, jamaat := 0, others := 7 },
         winnerPartyId := none, winnerAllianceId := none, winnerCandidateId := none,
         totalVotes := 7, margin := 0, marginPercentage := 0,
         status := Status.pending, updatedAt := 0, updatedBy := "" }]
      parties 0 0).partySeatCounts = [] ∧
    (updateElectionSummaryCore
      [{ id := "d-1", constituencyId := "d-1", partyVotes := [("zzz-front", 7)],
         allianceVotes := { bnp := 0, jamaat := 0, others := 7 },
         winnerPartyId := none, winnerAllianceId := none, winnerCandidateId := none,
         totalVotes := 7, margin := 0, marginPercentage := 0,
         status := Status.pending, updatedAt := 0, updatedBy := "" }]
      parties 0 0).totalVotesCast = 7 := by
  refine ⟨by decide, by decide⟩

/-- C4 (amended): the per-constituency alliance aggregation does route
unknown party ids into the fallback bucket: a vote mapping whose keys are
all unknown to the party table lands entirely in the others bucket, with
nothing raised and nothing dropped.  (The national summary recomputation
instead drops unknown-id votes from per-party totals, see the
counterexample.) -/
theorem C4_unknown_routed_to_others_amended (pv : List (String × Int))
    (h : ∀ kv ∈ pv, getPartyById kv.1 = none) :
    calculateAllianceVotes pv = { bnp := 0, jamaat := 0, others := votesSum pv } := by
  suffices haux : ∀ (l : List (String × Int)) (av : AllianceVotes),
      (∀ kv ∈ l, getPartyById kv.1 = none) →
      l.foldl (fun av kv =>
        match getPartyById kv.1 with
        | none => { av with others := av.others + kv.2 }
        | some party =>
            if party.allianceId == some "bnp" then { av with bnp := av.bnp + kv.2 }
            else if party.allianceId == some "jamaat" then { av with jamaat := av.jamaat + kv.2 }
            else { av with others := av.others + kv.2 }) av =
        { av with others := av.others + votesSum l } by
    rw [calculateAllianceVotes, haux pv _ h]
    simp
  intro l
  induction l with
  | nil =>
      intro av _
      simp [votesSum]
  | cons kv l ih =>
      intro av hl
      rw [List.foldl_cons]
      have hk : getPartyById kv.1 = none := hl kv (List.mem_cons_self kv l)
      simp only [hk]
      rw [ih _ (fun kv2 h2 => hl kv2 (List.mem_cons_of_mem kv h2)), votesSum_cons]
      simp [add_assoc]

/-- C4 witness: the routing theorem applied to the all-unknown tally
zzz: 7. -/
theorem C4_unknown_routed_to_others_witness :
    calculateAllianceVotes [("zzz", 7)] = { bnp := 0, jamaat := 0, others := 7 } :=
  C4_unknown_routed_to_others_amended [("zzz", 7)] (by decide)

theorem insertKeep_pairwise {α : Type} {R : α → α → Prop} {keep : α → α → Bool}
    (htrans : ∀ a b c, R a b → R b c → R a c)
    (h1 : ∀ a b, keep a b = true → R a b)
    (h2 : ∀ a b, keep a b = false → R b a)
    (x : α) : ∀ l : List α, List.Pairwise R l → List.Pairwise R (insertKeep keep x l) := by
  intro l
  induction l with
  | nil =>
      intro _
      simp [insertKeep]
  | cons y ys ih =>
      intro hl
      obtain ⟨hy, hys⟩ := List.pairwise_cons.mp hl
      by_cases hk : keep y x
      · simp only [insertKeep, hk, if_true]
        refine List.pairwise_cons.mpr ⟨?_, ih hys⟩
        intro z hz
        rcases List.mem_cons.mp ((insertKeep_perm keep x ys).mem_iff.mp hz) with hzx | hzys
        · rw [hzx]
          exact h1 y x hk
        · exact hy z hzys
      · simp only [insertKeep, hk, if_false]
        refine List.pairwise_cons.mpr ⟨?_, hl⟩
        intro z hz
        rcases List.mem_cons.mp hz with hzy | hzys
        · rw [hzy]
          exact h2 y x (Bool.not_eq_true _ ▸ hk)
        · exact htrans x y z (h2 y x (Bool.not_eq_true _ ▸ hk)) (hy z hzys)

theorem stableSortBy_pairwise {α : Type} {R : α → α → Prop} {keep : α → α → Bool}
    (htrans : ∀ a b c, R a b → R b c → R a c)
    (h1 : ∀ a b, keep a b = true → R a b)
    (h2 : ∀ a b, keep a b = false → R b a)
    (l : List α) : List.Pairwise R (stableSortBy keep l) := by
  suffices haux : ∀ (l acc : List α), List.Pairwise R acc →
      List.Pairwise R (l.foldl (fun a x => insertKeep keep x a) acc) by
    exact haux l [] List.Pairwise.nil
  intro l
  induction l with
  | nil => intro acc hacc; exact hacc
  | cons x l ih =>
      intro acc hacc
      rw [List.foldl_cons]
      exact ih _ (insertKeep_pairwise htrans h1 h2 x acc hacc)

/-- C9 counterexample: the nested member-party lists are not tie-broken by
totalVotes.  One completed result (winner bnp) whose tally carries al: 10
before jp-ershad: 20 puts both parties, tied at 0 seats, into the others
alliance in encounter order al, jp-ershad, violating the claimed
totalVotes-descending tie-break (10 before 20). -/
theorem C9_member_sort_counterexample :
    ¬ (∀ a ∈ aggregateAllianceSeatCounts
        [{ id := "d-1", constituencyId := "d-1",
           partyVotes := [("al", 10), ("jp-ershad", 20)],
           allianceVotes := { bnp := 0, jamaat := 0, others := 30 },
           winnerPartyId := some "bnp", winnerAllianceId := some "bnp",
           winnerCandidateId := none, totalVotes := 30, margin := 0,
           marginPercentage := 0, status := Status.completed,
           updatedAt := 0, updatedBy := "" }],
        List.Pairwise
          (fun x y => x.seats > y.seats ∨ (x.seats = y.seats ∧ y.totalVotes ≤ x.totalVotes))
          a.parties) := by
  decide

/-- C9 (amended): every nested member-party list is sorted by seats
descending; equal-seat member parties keep their encounter order and are
not reordered by totalVotes. -/
theorem C9_member_sort_seats_only (results : List Result) :
    ∀ a ∈ aggregateAllianceSeatCounts results,
      List.Pairwise (fun x y => y.seats ≤ x.seats) a.parties := by
  intro a ha
  simp only [aggregateAllianceSeatCounts, List.mem_map] at ha
  obtain ⟨al, _, rfl⟩ := ha
  show List.Pairwise (fun x y => y.seats ≤ x.seats) (stableSortBy keepSeats _)
  refine stableSortBy_pairwise ?_ ?_ ?_ _
  · intro a b c hab hbc
    exact le_trans hbc hab
  · intro a b h
    exact of_decide_eq_true h
  · intro a b h
    have := of_decide_eq_false h
    omega

/-- C9 witness: the seats-descending theorem applied to a single completed
zero-vote result for bnp, whose bnp-alliance entry carries one member
party. -/
theorem C9_member_sort_seats_only_witness :
    List.Pairwise (fun x y => SeatCount.seats y ≤ SeatCount.seats x)
      (AllianceSeatCount.parties
        { allianceId := "bnp", allianceName := "BNP Alliance", allianceColor := "#E4002B",
          seats := 1, leadingSeats := 0, totalVotes := 0, votePercentage := 0,
          parties := [{ partyId := "bnp", partyName := "BNP", partyColor := "#E4002B",
                        seats := 1, leadingSeats := 0, totalVotes := 0,
                        votePercentage := 0, allianceId := some "bnp" }] }) :=
  C9_member_sort_seats_only
    [{ id := "d", constituencyId := "d", partyVotes := [("bnp", 0)],
       allianceVotes := { bnp := 0, jamaat := 0, others := 0 },
       winnerPartyId := some "bnp", winnerAllianceId := some "bnp",
       winnerCandidateId := none, totalVotes := 0, margin := 0,
       marginPercentage := 0, status := Status.completed,
       updatedAt := 0, updatedBy := "u" }]
    _ (by decide)

/-- C8: every percentage is guarded against a zero denominator.  When the
computed totalVotes is 0 the save path emits marginPercentage 0; when
totalVotesCast is 0 the summary recomputation emits votePercentage 0 for
every listed party; when the result set carries 0 total votes the alliance
aggregation emits votePercentage 0 for every alliance and every nested
member party.  (Rat arithmetic in the embedding has no NaN or Infinity;
the guards mean the division is never taken when the denominator is 0.) -/
theorem C8_division_by_zero_safe :
    (∀ (p : SaveResultPayload) (now : Nat),
      (saveResultCore p now).totalVotes = 0 →
      (saveResultCore p now).marginPercentage = 0) ∧
    (∀ (results : List Result) (ps : List Party) (trv : Int) (now : Nat),
      (updateElectionSummaryCore results ps trv now).totalVotesCast = 0 →
      ∀ sc ∈ (updateElectionSummaryCore results ps trv now).partySeatCounts,
        sc.votePercentage = 0) ∧
    (∀ results : List Result, (results.map Result.totalVotes).sum = 0 →
      ∀ a ∈ aggregateAllianceSeatCounts results,
        a.votePercentage = 0 ∧ ∀ sc ∈ a.parties, sc.votePercentage = 0) := by
  refine ⟨?_, ?_, ?_⟩
  · intro p now h
    simp only [saveResultCore] at h ⊢
    simp [h]
  · intro results ps trv now h sc hsc
    simp only [updateElectionSummaryCore] at h hsc
    have hsc2 := (stableSortBy_perm _ _).mem_iff.mp hsc
    have hsc3 := List.mem_of_mem_filter hsc2
    rw [List.mem_map] at hsc3
    obtain ⟨sc0, _, rfl⟩ := hsc3
    simp [h]
  · intro results h a ha
    simp only [aggregateAllianceSeatCounts, List.mem_map] at ha
    obtain ⟨al, _, rfl⟩ := ha
    constructor
    · simp [buildAllianceEntry, h]
    · intro sc hsc
      simp only [buildAllianceEntry] at hsc
      have hsc2 := (stableSortBy_perm _ _).mem_iff.mp hsc
      rw [List.mem_filterMap] at hsc2
      obtain ⟨pid, _, hsome⟩ := hsc2
      rcases hp : getPartyById pid with _ | party
      · rw [hp] at hsome
        simp at hsome
      · rw [hp] at hsome
        simp only [Option.some.injEq] at hsome
        rw [← hsome]
        simp [h]

/-- C8 witness: the three guards applied at empty inputs, whose
denominators are all 0. -/
theorem C8_division_by_zero_safe_witness :
    (saveResultCore
      { constituencyId := "e-1", partyVotes := [],
        status := Status.completed, adminUid := "w" } 3).marginPercentage = 0 ∧
    (∀ sc ∈ (updateElectionSummaryCore [] [] 0 0).partySeatCounts,
      sc.votePercentage = 0) ∧
    (∀ a ∈ aggregateAllianceSeatCounts [],
      a.votePercentage = 0 ∧ ∀ sc ∈ a.parties, sc.votePercentage = 0) :=
  ⟨C8_division_by_zero_safe.1
      { constituencyId := "e-1", partyVotes := [],
        status := Status.completed, adminUid := "w" } 3 (by decide),
   C8_division_by_zero_safe.2.1 [] [] 0 0 (by decide),
   C8_division_by_zero_safe.2.2 [] (by decide)⟩

/-! Helper lemmas for the summary recomputation. -/

theorem scSum_cons (sc : SeatCount) (l : List SeatCount) :
    scSum (sc :: l) = sc.totalVotes + scSum l := by
  simp [scSum]

theorem bumpVotes_ids (l : List SeatCount) (pid : String) (v : Int) :
    scIds (bumpVotes l pid v) = scIds l := by
  simp only [bumpVotes, scIds, List.map_map]
  congr 1
  funext sc
  by_cases h : sc.partyId == pid <;> simp [h, Function.comp]

theorem bumpSeats_ids (l : List SeatCount) (pid : String) :
    scIds (bumpSeats l pid) = scIds l := by
  simp only [bumpSeats, scIds, List.map_map]
  congr 1
  funext sc
  by_cases h : sc.partyId == pid <;> simp [h, Function.comp]

theorem bumpLeading_ids (l : List SeatCount) (pid : String) :
    scIds (bumpLeading l pid) = scIds l := by
  simp only [bumpLeading, scIds, List.map_map]
  congr 1
  funext sc
  by_cases h : sc.partyId == pid <;> simp [h, Function.comp]

theorem foldlBumpVotes_ids (pv : List (String × Int)) :
    ∀ l : List SeatCount,
      scIds (pv.foldl (fun acc kv => bumpVotes acc kv.1 kv.2) l) = scIds l := by
  induction pv with
  | nil => intro l; rfl
  | cons kv pv ih =>
      intro l
      rw [List.foldl_cons, ih, bumpVotes_ids]

theorem scIds_cons (sc : SeatCount) (l : List SeatCount) :
    scIds (sc :: l) = sc.partyId :: scIds l := rfl

theorem bumpSeats_sum (l : List SeatCount) (pid : String) :
    scSum (bumpSeats l pid) = scSum l := by
  induction l with
  | nil => rfl
  | cons sc l ih =>
      have hcons : bumpSeats (sc :: l) pid =
          (if sc.partyId == pid then { sc with seats := sc.seats + 1 } else sc)
            :: bumpSeats l pid := rfl
      rw [hcons, scSum_cons, scSum_cons, ih]
      by_cases h : (sc.partyId == pid) = true <;> simp [h]

theorem bumpLeading_sum (l : List SeatCount) (pid : String) :
    scSum (bumpLeading l pid) = scSum l := by
  induction l with
  | nil => rfl
  | cons sc l ih =>
      have hcons : bumpLeading (sc :: l) pid =
          (if sc.partyId == pid then { sc with leadingSeats := sc.leadingSeats + 1 } else sc)
            :: bumpLeading l pid := rfl
      rw [hcons, scSum_cons, scSum_cons, ih]
      by_cases h : (sc.partyId == pid) = true <;> simp [h]

theorem bumpVotes_not_mem (l : List SeatCount) (pid : String) (v : Int)
    (h : pid ∉ scIds l) : bumpVotes l pid v = l := by
  induction l with
  | nil => rfl
  | cons sc l ih =>
      rw [scIds_cons, List.mem_cons, not_or] at h
      obtain ⟨h1, h2⟩ := h
      have hne : ¬ (sc.partyId = pid) := fun hc => h1 hc.symm
      have hcons : bumpVotes (sc :: l) pid v =
          (if sc.partyId == pid then { sc with totalVotes := sc.totalVotes + v } else sc)
            :: bumpVotes l pid v := rfl
      rw [hcons, ih h2, if_neg (by simp [hne])]

theorem bumpVotes_sum (l : List SeatCount) (pid : String) (v : Int)
    (hnd : (scIds l).Nodup) :
    scSum (bumpVotes l pid v) = scSum l + (if pid ∈ scIds l then v else 0) := by
  induction l with
  | nil => simp [bumpVotes, scSum, scIds]
  | cons sc l ih =>
      rw [scIds_cons] at hnd
      obtain ⟨hhead, htail⟩ := List.nodup_cons.mp hnd
      have hcons : bumpVotes (sc :: l) pid v =
          (if sc.partyId == pid then { sc with totalVotes := sc.totalVotes + v } else sc)
            :: bumpVotes l pid v := rfl
      by_cases h : sc.partyId = pid
      · have hnm : pid ∉ scIds l := h ▸ hhead
        rw [hcons, bumpVotes_not_mem l pid v hnm, scSum_cons, scSum_cons,
          if_pos (show (sc.partyId == pid) = true from beq_iff_eq.mpr h),
          if_pos (show pid ∈ scIds (sc :: l) from
            (scIds_cons sc l) ▸ List.mem_cons.mpr (Or.inl h.symm))]
        show sc.totalVotes + v + scSum l = sc.totalVotes + scSum l + v
        omega
      · rw [hcons, scSum_cons, scSum_cons,
          if_neg (show ¬ ((sc.partyId == pid) = true) from by simp [h]), ih htail]
        have hiff : (pid ∈ scIds (sc :: l)) ↔ (pid ∈ scIds l) := by
          rw [scIds_cons, List.mem_cons]
          constructor
          · intro hm
            rcases hm with hc | hm2
            · exact absurd hc.symm h
            · exact hm2
          · exact fun hm => Or.inr hm
        by_cases hm : pid ∈ scIds l
        · rw [if_pos hm, if_pos (hiff.mpr hm)]
          omega
        · rw [if_neg hm, if_neg (fun hc => hm (hiff.mp hc))]
          omega

theorem foldlBumpVotes_sum (pv : List (String × Int)) :
    ∀ l : List SeatCount, (scIds l).Nodup → (∀ kv ∈ pv, kv.1 ∈ scIds l) →
      scSum (pv.foldl (fun acc kv => bumpVotes acc kv.1 kv.2) l) =
        scSum l + votesSum pv := by
  induction pv with
  | nil => intro l _ _; simp [votesSum]
  | cons kv pv ih =>
      intro l hnd hkeys
      rw [List.foldl_cons]
      have hnd2 : (scIds (bumpVotes l kv.1 kv.2)).Nodup := by
        rw [bumpVotes_ids]; exact hnd
      have hkeys2 : ∀ kv2 ∈ pv, kv2.1 ∈ scIds (bumpVotes l kv.1 kv.2) := by
        rw [bumpVotes_ids]
        exact fun kv2 h2 => hkeys kv2 (List.mem_cons_of_mem kv h2)
      rw [ih _ hnd2 hkeys2, bumpVotes_sum l kv.1 kv.2 hnd,
        if_pos (hkeys kv (List.mem_cons_self kv pv)), votesSum_cons]
      omega

theorem stepResult_ids (st : AggState) (r : Result) :
    scIds (stepResult st r).seatCounts = scIds st.seatCounts := by
  unfold stepResult
  split <;> (try split) <;>
    simp [foldlBumpVotes_ids, bumpSeats_ids, bumpLeading_ids]

theorem stepResult_tvc (st : AggState) (r : Result) :
    (stepResult st r).totalVotesCast = st.totalVotesCast + r.totalVotes := by
  unfold stepResult
  split <;> (try split) <;> simp

theorem stepResult_sum (st : AggState) (r : Result)
    (hnd : (scIds st.seatCounts).Nodup)
    (hkeys : ∀ kv ∈ r.partyVotes, kv.1 ∈ scIds st.seatCounts) :
    scSum (stepResult st r).seatCounts = scSum st.seatCounts + votesSum r.partyVotes := by
  have hcore := foldlBumpVotes_sum r.partyVotes st.seatCounts hnd hkeys
  unfold stepResult
  split <;> (try split) <;> simp [bumpSeats_sum, bumpLeading_sum, hcore]

theorem bumpVotes_nonneg (l : List SeatCount) (pid : String) (v : Int)
    (hl : ∀ sc ∈ l, 0 ≤ sc.totalVotes) (hv : 0 ≤ v) :
    ∀ sc ∈ bumpVotes l pid v, 0 ≤ sc.totalVotes := by
  intro sc hsc
  rw [bumpVotes, List.mem_map] at hsc
  obtain ⟨sc0, hsc0, rfl⟩ := hsc
  have h0 := hl sc0 hsc0
  by_cases h : (sc0.partyId == pid) = true <;> simp [h] <;> omega

theorem bumpSeats_nonneg (l : List SeatCount) (pid : String)
    (hl : ∀ sc ∈ l, 0 ≤ sc.totalVotes) :
    ∀ sc ∈ bumpSeats l pid, 0 ≤ sc.totalVotes := by
  intro sc hsc
  rw [bumpSeats, List.mem_map] at hsc
  obtain ⟨sc0, hsc0, rfl⟩ := hsc
  have h0 := hl sc0 hsc0
  by_cases h : (sc0.partyId == pid) = true <;> simp [h] <;> omega

theorem bumpLeading_nonneg (l : List SeatCount) (pid : String)
    (hl : ∀ sc ∈ l, 0 ≤ sc.totalVotes) :
    ∀ sc ∈ bumpLeading l pid, 0 ≤ sc.totalVotes := by
  intro sc hsc
  rw [bumpLeading, List.mem_map] at hsc
  obtain ⟨sc0, hsc0, rfl⟩ := hsc
  have h0 := hl sc0 hsc0
  by_cases h : (sc0.partyId == pid) = true <;> simp [h] <;> omega

theorem foldlBumpVotes_nonneg (pv : List (String × Int)) :
    ∀ l : List SeatCount, (∀ sc ∈ l, 0 ≤ sc.totalVotes) →
      (∀ kv ∈ pv, 0 ≤ kv.2) →
      ∀ sc ∈ pv.foldl (fun acc kv => bumpVotes acc kv.1 kv.2) l, 0 ≤ sc.totalVotes := by
  induction pv with
  | nil => intro l hl _; exact hl
  | cons kv pv ih =>
      intro l hl hpv
      rw [List.foldl_cons]
      exact ih _
        (bumpVotes_nonneg l kv.1 kv.2 hl (hpv kv (List.mem_cons_self kv pv)))
        (fun kv2 h2 => hpv kv2 (List.mem_cons_of_mem kv h2))

theorem stepResult_nonneg (st : AggState) (r : Result)
    (hl : ∀ sc ∈ st.seatCounts, 0 ≤ sc.totalVotes)
    (hpv : ∀ kv ∈ r.partyVotes, 0 ≤ kv.2) :
    ∀ sc ∈ (stepResult st r).seatCounts, 0 ≤ sc.totalVotes := by
  have hcore := foldlBumpVotes_nonneg r.partyVotes st.seatCounts hl hpv
  unfold stepResult
  split <;> (try split) <;>
    first
      | exact fun sc hsc => hcore sc hsc
      | exact fun sc hsc => bumpSeats_nonneg _ _ hcore sc hsc
      | exact fun sc hsc => bumpLeading_nonneg _ _ hcore sc hsc

theorem foldResults_ids (results : List Result) :
    ∀ st : AggState,
      scIds (results.foldl stepResult st).seatCounts = scIds st.seatCounts := by
  induction results with
  | nil => intro st; rfl
  | cons r results ih =>
      intro st
      rw [List.foldl_cons, ih, stepResult_ids]

theorem foldResults_tvc (results : List Result) :
    ∀ st : AggState,
      (results.foldl stepResult st).totalVotesCast =
        st.totalVotesCast + (results.map Result.totalVotes).sum := by
  induction results with
  | nil => intro st; simp
  | cons r results ih =>
      intro st
      rw [List.foldl_cons, ih, stepResult_tvc, List.map_cons, List.sum_cons]
      omega

theorem foldResults_sum (results : List Result) :
    ∀ st : AggState, (scIds st.seatCounts).Nodup →
      (∀ r ∈ results, ∀ kv ∈ r.partyVotes, kv.1 ∈ scIds st.seatCounts) →
      scSum (results.foldl stepResult st).seatCounts =
        scSum st.seatCounts + (results.map (fun r => votesSum r.partyVotes)).sum := by
  induction results with
  | nil => intro st _ _; simp
  | cons r results ih =>
      intro st hnd hkeys
      rw [List.foldl_cons]
      have hnd2 : (scIds (stepResult st r).seatCounts).Nodup := by
        rw [stepResult_ids]; exact hnd
      have hkeys2 : ∀ r2 ∈ results, ∀ kv ∈ r2.partyVotes,
          kv.1 ∈ scIds (stepResult st r).seatCounts := by
        rw [stepResult_ids]
        exact fun r2 h2 => hkeys r2 (List.mem_cons_of_mem r h2)
      rw [ih _ hnd2 hkeys2,
        stepResult_sum st r hnd (hkeys r (List.mem_cons_self r results)),
        List.map_cons, List.sum_cons]
      omega

theorem foldResults_nonneg (results : List Result) :
    ∀ st : AggState, (∀ sc ∈ st.seatCounts, 0 ≤ sc.totalVotes) →
      (∀ r ∈ results, ∀ kv ∈ r.partyVotes, 0 ≤ kv.2) →
      ∀ sc ∈ (results.foldl stepResult st).seatCounts, 0 ≤ sc.totalVotes := by
  induction results with
  | nil => intro st hl _; exact hl
  | cons r results ih =>
      intro st hl hpv
      rw [List.foldl_cons]
      exact ih _
        (stepResult_nonneg st r hl (hpv r (List.mem_cons_self r results)))
        (fun r2 h2 => hpv r2 (List.mem_cons_of_mem r h2))

theorem setSC_not_mem (l : List SeatCount) (sc : SeatCount)
    (h : sc.partyId ∉ scIds l) : setSC l sc = l ++ [sc] := by
  have hany : l.any (fun x => x.partyId == sc.partyId) = false := by
    rw [List.any_eq_false]
    intro x hx
    simp only [beq_iff_eq]
    intro hc
    exact h (hc ▸ List.mem_map_of_mem SeatCount.partyId hx)
  simp [setSC, hany]

theorem initSeatCounts_eq (ps : List Party) (hnd : (ps.map Party.id).Nodup) :
    initSeatCounts ps = ps.map zeroSeatCount := by
  suffices haux : ∀ (ps : List Party) (acc : List SeatCount),
      (∀ p ∈ ps, p.id ∉ scIds acc) → (ps.map Party.id).Nodup →
      ps.foldl (fun acc p => setSC acc (zeroSeatCount p)) acc =
        acc ++ ps.map zeroSeatCount by
    simpa [initSeatCounts] using haux ps [] (by simp [scIds]) hnd
  intro ps
  induction ps with
  | nil => intro acc _ _; simp
  | cons p ps ih =>
      intro acc hdis hnd
      obtain ⟨hpnm, htail⟩ := List.nodup_cons.mp
        (show (p.id :: ps.map Party.id).Nodup by simpa using hnd)
      rw [List.foldl_cons,
        setSC_not_mem acc (zeroSeatCount p)
          (show (zeroSeatCount p).partyId ∉ scIds acc from
            hdis p (List.mem_cons_self p ps))]
      rw [ih (acc ++ [zeroSeatCount p]) ?_ htail]
      · simp
      · intro q hq
        have h1 : q.id ∉ scIds acc := hdis q (List.mem_cons_of_mem p hq)
        have h2 : q.id ≠ p.id := by
          intro hc
          exact hpnm (hc ▸ List.mem_map_of_mem Party.id hq)
        simp only [scIds, List.map_append, List.mem_append, not_or]
        refine ⟨by simpa [scIds] using h1, ?_⟩
        simp [zeroSeatCount, h2]

theorem initSeatCounts_ids (ps : List Party) (hnd : (ps.map Party.id).Nodup) :
    scIds (initSeatCounts ps) = ps.map Party.id := by
  rw [initSeatCounts_eq ps hnd]
  simp only [scIds, List.map_map]
  rfl

theorem initSeatCounts_sum (ps : List Party) (hnd : (ps.map Party.id).Nodup) :
    scSum (initSeatCounts ps) = 0 := by
  rw [initSeatCounts_eq ps hnd]
  have haux : ∀ l : List Party, scSum (l.map zeroSeatCount) = 0 := by
    intro l
    induction l with
    | nil => rfl
    | cons p l ih =>
        rw [List.map_cons, scSum_cons, ih]
        rfl
  exact haux ps

theorem initSeatCounts_nonneg (ps : List Party) (hnd : (ps.map Party.id).Nodup) :
    ∀ sc ∈ initSeatCounts ps, 0 ≤ sc.totalVotes := by
  rw [initSeatCounts_eq ps hnd]
  intro sc hsc
  rw [List.mem_map] at hsc
  obtain ⟨p, _, rfl⟩ := hsc
  exact le_refl 0

theorem scSum_of_perm {l1 l2 : List SeatCount} (h : List.Perm l1 l2) :
    scSum l1 = scSum l2 :=
  List.Perm.sum_eq (h.map SeatCount.totalVotes)

theorem scSum_filter (l : List SeatCount) (hnn : ∀ sc ∈ l, 0 ≤ sc.totalVotes) :
    scSum (l.filter (fun sc =>
      decide (0 < sc.seats) || decide (0 < sc.leadingSeats) || decide (0 < sc.totalVotes))) =
      scSum l := by
  induction l with
  | nil => rfl
  | cons sc l ih =>
      have htail := ih (fun sc2 h2 => hnn sc2 (List.mem_cons_of_mem sc h2))
      rw [List.filter_cons]
      by_cases hc : (decide (0 < sc.seats) || decide (0 < sc.leadingSeats) ||
          decide (0 < sc.totalVotes)) = true
      · rw [if_pos hc, scSum_cons, scSum_cons, htail]
      · rw [if_neg hc, htail, scSum_cons]
        have h0 := hnn sc (List.mem_cons_self sc l)
        simp only [Bool.or_eq_true, decide_eq_true_eq, not_or] at hc
        omega

theorem scSum_pct_map (l : List SeatCount) (c : Int) :
    scSum (l.map (fun sc =>
      { sc with votePercentage :=
          if c > 0 then (sc.totalVotes : Rat) / (c : Rat) * 100 else 0 })) = scSum l := by
  induction l with
  | nil => rfl
  | cons sc l ih =>
      rw [List.map_cons, scSum_cons, scSum_cons, ih]

theorem sum_totals_congr (results : List Result)
    (htot : ∀ r ∈ results, r.totalVotes = votesSum r.partyVotes) :
    (results.map (fun r => votesSum r.partyVotes)).sum =
      (results.map Result.totalVotes).sum := by
  induction results with
  | nil => rfl
  | cons r results ih =>
      rw [List.map_cons, List.map_cons, List.sum_cons, List.sum_cons,
        ih (fun r2 h2 => htot r2 (List.mem_cons_of_mem r h2)),
        htot r (List.mem_cons_self r results)]

/-- C2 (amended): totalVotesCast always equals the sum of result totals,
for every result set and party list (first conjunct, unconditional).
Conservation of the per-party seat-count totals additionally holds whenever
every party id appearing in a tally is present in the party list, every
vote count is non-negative, and each totalVotes equals its partyVotes sum
(all guaranteed for data written through the save path against a complete
party table); without those hypotheses the summary loop silently drops
votes for unlisted party ids (see the counterexample). -/
theorem C2_conservation :
    (∀ (results : List Result) (ps : List Party) (trv : Int) (now : Nat),
      (updateElectionSummaryCore results ps trv now).totalVotesCast =
        (results.map Result.totalVotes).sum) ∧
    (∀ (results : List Result) (ps : List Party) (trv : Int) (now : Nat),
      (ps.map Party.id).Nodup →
      (∀ r ∈ results, ∀ kv ∈ r.partyVotes, kv.1 ∈ ps.map Party.id) →
      (∀ r ∈ results, r.totalVotes = votesSum r.partyVotes) →
      (∀ r ∈ results, ∀ kv ∈ r.partyVotes, 0 ≤ kv.2) →
      scSum (updateElectionSummaryCore results ps trv now).partySeatCounts =
        (updateElectionSummaryCore results ps trv now).totalVotesCast) := by
  have htvcAll : ∀ (results : List Result) (ps : List Party),
      (results.foldl stepResult
        { seatCounts := initSeatCounts ps, totalVotesCast := 0,
          declaredSeats := 0 }).totalVotesCast = (results.map Result.totalVotes).sum := by
    intro results ps
    simpa using foldResults_tvc results
      { seatCounts := initSeatCounts ps, totalVotesCast := 0, declaredSeats := 0 }
  constructor
  · intro results ps trv now
    simp only [updateElectionSummaryCore]
    exact htvcAll results ps
  · intro results ps trv now hnd hkeys htot hpos
    have hids := initSeatCounts_ids ps hnd
    have hkeys2 : ∀ r ∈ results, ∀ kv ∈ r.partyVotes,
        kv.1 ∈ scIds (initSeatCounts ps) := by
      rw [hids]; exact hkeys
    have hnd2 : (scIds (initSeatCounts ps)).Nodup := by
      rw [hids]; exact hnd
    have hsum : scSum (results.foldl stepResult
        { seatCounts := initSeatCounts ps, totalVotesCast := 0,
          declaredSeats := 0 }).seatCounts =
        (results.map (fun r => votesSum r.partyVotes)).sum := by
      rw [foldResults_sum results _ hnd2 hkeys2]
      simp [initSeatCounts_sum ps hnd]
    have hnn : ∀ sc ∈ (results.foldl stepResult
        { seatCounts := initSeatCounts ps, totalVotesCast := 0,
          declaredSeats := 0 }).seatCounts, 0 ≤ sc.totalVotes :=
      foldResults_nonneg results _ (initSeatCounts_nonneg ps hnd) hpos
    simp only [updateElectionSummaryCore]
    rw [scSum_of_perm (stableSortBy_perm _ _), scSum_filter, scSum_pct_map,
      hsum, sum_totals_congr results htot, htvcAll results ps]
    intro sc hsc
    rw [List.mem_map] at hsc
    obtain ⟨sc0, hsc0, rfl⟩ := hsc
    exact hnn sc0 hsc0

/-- C2 counterexample: with an empty party list, a result carrying 5 votes
under the id "qqq" yields totalVotesCast 5 while the per-party seat counts
sum to 0 — the two sides of the claimed conservation identity differ. -/
theorem C2_conservation_counterexample :
    scSum (updateElectionSummaryCore
      [{ id := "q", constituencyId := "q", partyVotes := [("qqq", 5)],
         allianceVotes := { bnp := 0, jamaat := 0, others := 5 },
         winnerPartyId := none, winnerAllianceId := none, winnerCandidateId := none,
         totalVotes := 5, margin := 0, marginPercentage := 0,
         status := Status.pending, updatedAt := 0, updatedBy := "" }]
      [] 0 0).partySeatCounts = 0 ∧
    (updateElectionSummaryCore
      [{ id := "q", constituencyId := "q", partyVotes := [("qqq", 5)],
         allianceVotes := { bnp := 0, jamaat := 0, others := 5 },
         winnerPartyId := none, winnerAllianceId := none, winnerCandidateId := none,
         totalVotes := 5, margin := 0, marginPercentage := 0,
         status := Status.pending, updatedAt := 0, updatedBy := "" }]
      [] 0 0).totalVotesCast = 5 := by
  refine ⟨by decide, by decide⟩

/-- C2 witness: conservation applied to one completed result bnp: 4
against the full party table. -/
theorem C2_conservation_witness :
    scSum (updateElectionSummaryCore
      [{ id := "d", constituencyId := "d", partyVotes := [("bnp", 4)],
         allianceVotes := { bnp := 4, jamaat := 0, others := 0 },
         winnerPartyId := some "bnp", winnerAllianceId := some "bnp",
         winnerCandidateId := none, totalVotes := 4, margin := 4,
         marginPercentage := 100, status := Status.completed,
         updatedAt := 0, updatedBy := "u" }] parties 0 0).partySeatCounts =
      (updateElectionSummaryCore
      [{ id := "d", constituencyId := "d", partyVotes := [("bnp", 4)],
         allianceVotes := { bnp := 4, jamaat := 0, others := 0 },
         winnerPartyId := some "bnp", winnerAllianceId := some "bnp",
         winnerCandidateId := none, totalVotes := 4, margin := 4,
         marginPercentage := 100, status := Status.completed,
         updatedAt := 0, updatedBy := "u" }] parties 0 0).totalVotesCast :=
  C2_conservation.2
    [{ id := "d", constituencyId := "d", partyVotes := [("bnp", 4)],
       allianceVotes := { bnp := 4, jamaat := 0, others := 0 },
       winnerPartyId := some "bnp", winnerAllianceId := some "bnp",
       winnerCandidateId := none, totalVotes := 4, margin := 4,
       marginPercentage := 100, status := Status.completed,
       updatedAt := 0, updatedBy := "u" }] parties 0 0
    (by decide) (by decide) (by decide) (by decide)

end Election
